import Mathlib

/-!
# Verification of the duty-roster scheduler (`streamlit_jadwal_piket_app.py`)

Shallow embedding of the scheduling core of the application:

* dates are Python `datetime.date` ordinals (`date.toordinal`): `Nat`, with
  ordinal 1 = 0001-01-01, a Monday, so `weekday d = (d - 1) % 7` agrees with
  Python's `date.weekday()` (Monday = 0) and `d + 1` is the next calendar day;
* the numpy random generator is an abstract deterministic stream of naturals
  (`Rng`); `np.random.default_rng(seed)` is `rngOfSeed seed` and an unseeded
  `default_rng()` is an externally supplied fresh `Rng` (entropy);
* pandas data frames are lists of `Row` records; dictionaries keyed by person
  name are functions `String → Nat` / `String → Option Nat`;
* Python exceptions (`RuntimeError` from the shortage check and the
  `AssertionError` of the final cap assert, both caught by `main`'s
  `try`/`except`) are `Except String` errors.
-/

set_option maxRecDepth 10000

namespace Piket

/-- Abstract state of `numpy.random.Generator`: a stream `f 0, f 1, ...` of
naturals together with a cursor into it.  Only determinism and the stream
interface matter for the program's logic; the concrete distribution of the
stream is irrelevant to every property proved below. -/
structure Rng where
  f : Nat → Nat
  k : Nat

/-- Draw the next natural from the stream, advancing the cursor. -/
def Rng.next (r : Rng) : Nat × Rng := (r.f r.k, ⟨r.f, r.k + 1⟩)

/-- Model of `np.random.default_rng(seed)` (source line 110): a stream that is
a deterministic function of the seed.  The mixing formula is a model; nothing
below depends on it beyond determinism. -/
def rngOfSeed (seed : Nat) : Rng :=
  ⟨fun k => (seed + k + 1) * 2654435761 % 4294967296, 0⟩

/-- Draw-without-replacement shuffle driven by the stream, modelling
`rng.shuffle(xs)`.  Each step removes the element at a stream-chosen index.
`fuel` is instantiated with the list length so the recursion is structural
(and hence reduces definitionally); with that fuel the `0` case is reached
only on the empty list. -/
def shuffleFuel : Nat → Rng → List String → List String × Rng
  | 0, r, l => (l, r)
  | _, r, [] => ([], r)
  | fuel + 1, r, a :: as =>
    let (x, r') := r.next
    let l := a :: as
    let i := x % l.length
    let rest := shuffleFuel fuel r' (l.eraseIdx i)
    (l.getD i "" :: rest.1, rest.2)

/-- Model of `rng.shuffle(xs)` (in-place in the source; here the shuffled
list is returned together with the advanced generator). -/
def rngShuffle (r : Rng) (l : List String) : List String × Rng :=
  shuffleFuel l.length r l

/-- Model of `rng.choice(xs)` for nonempty `xs`: a stream-chosen element. -/
def rngChoice (r : Rng) (l : List String) : String × Rng :=
  let (x, r') := r.next
  (l.getD (x % l.length) "", r')

/-! ## Calendar helpers (source lines 56-84) -/

/-- Source `HARI_ID`. -/
def HARI_ID : List String :=
  ["Senin", "Selasa", "Rabu", "Kamis", "Jumat", "Sabtu", "Minggu"]

/-- Source `BULAN_ID`. -/
def BULAN_ID : List String :=
  ["Januari", "Februari", "Maret", "April", "Mei", "Juni",
   "Juli", "Agustus", "September", "Oktober", "November", "Desember"]

/-- Python `date.weekday()` on ordinals: Monday = 0. -/
def weekday (d : Nat) : Nat := (d - 1) % 7

/-- Civil (year, month, day) components of a date ordinal - the standard
days-to-civil conversion, modelling the `year`/`month`/`day` fields of the
Python `date` object for ordinals ≥ 1. -/
def civilFromOrd (ord : Nat) : Nat × Nat × Nat :=
  let z := ord + 305
  let era := z / 146097
  let doe := z % 146097
  let yoe := (doe - doe / 1460 + doe / 36524 - doe / 146096) / 365
  let y := yoe + era * 400
  let doy := doe - (365 * yoe + yoe / 4 - yoe / 100)
  let mp := (5 * doy + 2) / 153
  let dd := doy - (153 * mp + 2) / 5 + 1
  let m := if mp < 10 then mp + 3 else mp - 9
  (if m ≤ 2 then y + 1 else y, m, dd)

/-- Source `fmt_tanggal_id` (lines 67-68):
`f"{HARI_ID[d.weekday()]}, {d.day} {BULAN_ID[d.month-1]} {d.year}"`. -/
def fmt_tanggal_id (d : Nat) : String :=
  let c := civilFromOrd d
  HARI_ID.getD (weekday d) "" ++ ", " ++ toString c.2.2 ++ " "
    ++ BULAN_ID.getD (c.2.1 - 1) "" ++ " " ++ toString c.1

/-- Source `SLOT_TEMPLATE` (lines 32-54). -/
def SLOT_TEMPLATE : List String :=
  ["A1,3,5,7",
   "A2,4,6,8",
   "A9,11,13,15",
   "A 10,12 FG A",
   "A 14,16 FG A",
   "B1,3,5,7",
   "B2,4,6,8",
   "B 9,11,13,15",
   "B 10,12 FG B",
   "B 14,16 FG B",
   "C1,3,5,7",
   "C2,4,6,8",
   "C9,11,13,15",
   "C 10,12,17 FG C",
   "C 14,16,17 FG C",
   "D 1,3,5,FG D",
   "D 2,4,6 FG D"]

/-- Source `workdays_in_week` (lines 78-84).  The national-holiday table
`ID_HOLIDAYS` is an external dependency of the program, modelled by the
predicate `isHoliday`. -/
def workdays_in_week (isHoliday : Nat → Bool) (monday_date : Nat) : List Nat :=
  ((List.range 5).map (fun i => monday_date + i)).filter (fun d => !isHoliday d)

/-! ## The week table (source `week_df`) -/

/-- One row of the week table, columns `[No, Nama, Team, Gedung, Tanggal]`.
`team` is an `Option` because the pandas left-merge in `day_df` produces a
missing value when a picked name is absent from `df_people` (which cannot
happen for picks drawn from the roster, but the model keeps the left-join
semantics). -/
structure Row where
  no : Nat
  nama : String
  team : Option String
  gedung : String
  tanggal : Nat
deriving Repr, DecidableEq

instance : Inhabited Row := ⟨⟨0, "", none, "", 0⟩⟩

/-- Left-join team lookup: `merge(df_people, on="Nama", how="left")` and
`df_people.set_index("Nama").loc[k, "Team"]`, first match (the right table has
unique keys after `main`'s duplicate check). -/
def lookupTeam (df_people : List (String × String)) (nm : String) : Option String :=
  (df_people.find? (fun p => p.1 == nm)).map Prod.snd

/-! ## Daily selection (source lines 115-143) -/

/-- Source `eligible` (lines 115-120). `last_day` comparison
`(d - last_day[nm]).days == 1` on ordinals is `d = l + 1`. -/
def eligible (max_per_minggu : Nat) (larang_berturut : Bool) (quota : String → Nat)
    (last_day : String → Option Nat) (nm : String) (d : Nat) (strict : Bool) : Bool :=
  if max_per_minggu ≤ quota nm then false
  else if larang_berturut && strict
      && (match last_day nm with
          | some l => d == l + 1
          | none => false) then false
  else true

/-- Mutable state of one day's selection loop: the pick list, the number of
slots still to fill, and the generator. -/
structure SelSt where
  picks : List String
  remaining : Nat
  rng : Rng

/-- One iteration of the tier loop `for target_q in range(max_per_minggu)`
(source lines 127-134).  The Python `if remaining == 0: break` is modelled by
the guard: once `remaining` is `0` every later iteration is the identity.
Note the loop only *reads* `quota`; the counts are updated in the end-of-day
loop (source lines 155-158). -/
def tierStep (names : List String) (max_per_minggu : Nat) (larang_berturut : Bool)
    (quota : String → Nat) (last_day : String → Option Nat) (d : Nat)
    (st : SelSt) (target_q : Nat) : SelSt :=
  if st.remaining = 0 then st
  else
    let group := names.filter (fun n =>
      quota n == target_q
        && eligible max_per_minggu larang_berturut quota last_day n d true
        && !(st.picks.contains n))
    let s := rngShuffle st.rng group
    let take := min group.length st.remaining
    ⟨st.picks ++ s.1.take take, st.remaining - take, s.2⟩

/-- The whole tier loop of one day, starting from an empty pick list and
`remaining = orang_per_hari`. -/
def tierPhase (names : List String) (orang_per_hari max_per_minggu : Nat)
    (larang_berturut : Bool) (quota : String → Nat) (last_day : String → Option Nat)
    (d : Nat) (r : Rng) : SelSt :=
  (List.range max_per_minggu).foldl
    (tierStep names max_per_minggu larang_berturut quota last_day d)
    ⟨[], orang_per_hari, r⟩

/-- The relaxation step (source lines 135-141): when slots remain, refill from
the people under the cap and not yet picked today, ignoring the
anti-consecutive rule. -/
def relaxPhase (names : List String) (max_per_minggu : Nat) (quota : String → Nat)
    (st : SelSt) : SelSt :=
  if 0 < st.remaining then
    let group_relax := names.filter (fun n =>
      decide (quota n < max_per_minggu) && !(st.picks.contains n))
    let s := rngShuffle st.rng group_relax
    let take := min group_relax.length st.remaining
    ⟨st.picks ++ s.1.take take, st.remaining - take, s.2⟩
  else st

/-- One day's full selection: the tier loop followed by the relaxation step.
A final `remaining ≠ 0` is the shortage condition of source line 142. -/
def selectDay (names : List String) (orang_per_hari max_per_minggu : Nat)
    (larang_berturut : Bool) (quota : String → Nat) (last_day : String → Option Nat)
    (d : Nat) (r : Rng) : SelSt :=
  relaxPhase names max_per_minggu quota
    (tierPhase names orang_per_hari max_per_minggu larang_berturut quota last_day d r)

/-- Source lines 145-153: the day's block of the week table.
`pd.DataFrame({"No": range(1, orang_per_hari+1), "Nama": picks[:orang_per_hari],
"Gedung": SLOT_TEMPLATE})` requires the three columns to have equal length
(`main` validates `len(SLOT_TEMPLATE) == orang_per_hari`, and on success
`len(picks) == orang_per_hari`); the model zips the three columns, which
agrees with the source whenever the lengths match. -/
def day_df (df_people : List (String × String)) (orang_per_hari : Nat)
    (picks : List String) (d : Nat) : List Row :=
  ((List.range orang_per_hari).zip ((picks.take orang_per_hari).zip SLOT_TEMPLATE)).map
    (fun p => ⟨p.1 + 1, p.2.1, lookupTeam df_people p.2.1, p.2.2, d⟩)

/-- The day loop of `schedule_one_week` (source lines 122-160): for each
workday select the day's people, abort with the shortage `RuntimeError` when
slots stay unfilled, otherwise append the day's block and update the per-week
state (`quota[nm] += 1; last_day[nm] = d` for every pick, lines 155-158). -/
def scheduleDays (df_people : List (String × String)) (orang_per_hari max_per_minggu : Nat)
    (larang_berturut : Bool) :
    List Nat → (String → Nat) → (String → Option Nat) → Rng → Except String (List Row × Rng)
  | [], _, _, r => .ok ([], r)
  | d :: rest, quota, last_day, r =>
    let names := df_people.map Prod.fst
    let st := selectDay names orang_per_hari max_per_minggu larang_berturut quota last_day d r
    if 0 < st.remaining then
      .error ("Tidak cukup kandidat untuk " ++ fmt_tanggal_id d ++ ".")
    else
      let day_rows := day_df df_people orang_per_hari st.picks d
      let picks' := st.picks.take orang_per_hari
      let quota' := picks'.foldl (fun q nm => fun n => if n = nm then q nm + 1 else q n) quota
      let last' := picks'.foldl (fun m nm => fun n => if n = nm then some d else m n) last_day
      match scheduleDays df_people orang_per_hari max_per_minggu larang_berturut
          rest quota' last' st.rng with
      | .error e => .error e
      | .ok (rows, r') => .ok (day_rows ++ rows, r')

/-! ## Repair pass (source lines 162-183) -/

/-- The names already assigned on `day` in the current week table
(`set(week_df.loc[week_df["Tanggal"] == day, "Nama"])`, source line 173). -/
def used_today (week : List Row) (day : Nat) : List String :=
  (week.filter (fun r => r.tanggal == day)).map Row.nama

/-- State of the repair sweep for one violator: the week table, the running
per-person counts (`by_person`), the remaining overflow of this violator, and
the generator. -/
structure RepSt where
  week : List Row
  cnt : String → Nat
  over : Nat
  rng : Rng

/-- One iteration of the inner repair loop `for ridx in rows_nm` (source lines
169-182): stop when the overflow is gone, skip the row when no replacement
candidate exists, otherwise overwrite the row's person (and team) with a
random candidate who is not yet assigned on that day and still under the cap,
updating both running counts. -/
def repairRow (df_people : List (String × String)) (names : List String)
    (max_per_minggu : Nat) (nm : String) (st : RepSt) (ridx : Nat) : RepSt :=
  if st.over = 0 then st
  else
    let row := st.week.getD ridx default
    let day := row.tanggal
    let candidates := names.filter (fun k =>
      !(used_today st.week day).contains k && decide (st.cnt k < max_per_minggu))
    if candidates.isEmpty then st
    else
      let c := rngChoice st.rng candidates
      let week' := st.week.set ridx { row with nama := c.1, team := lookupTeam df_people c.1 }
      let cnt1 := fun n => if n = c.1 then st.cnt c.1 + 1 else st.cnt n
      let cnt2 := fun n => if n = nm then cnt1 nm - 1 else cnt1 n
      ⟨week', cnt2, st.over - 1, c.2⟩

/-- The outer repair loop body for one violator `nm` (source lines 166-182):
its overflow and its current row indices are computed against the current
state, then the inner sweep runs. -/
def repairViolator (df_people : List (String × String)) (names : List String)
    (max_per_minggu : Nat) (acc : List Row × (String → Nat) × Rng) (nm : String) :
    List Row × (String → Nat) × Rng :=
  let over := acc.2.1 nm - max_per_minggu
  let rows_nm := (acc.1.enum.filter (fun p => p.2.nama == nm)).map Prod.fst
  let st := rows_nm.foldl (repairRow df_people names max_per_minggu nm)
    ⟨acc.1, acc.2.1, over, acc.2.2⟩
  (st.week, st.cnt, st.rng)

/-- Source lines 162-183.  `by_person = week_df.groupby("Nama").size().to_dict()`
is the count function below together with its key list: pandas `groupby` sorts
the distinct names, so the violators are visited in ascending name order. -/
def repairPass (df_people : List (String × String)) (names : List String)
    (max_per_minggu : Nat) (r : Rng) (week : List Row) : List Row × Rng :=
  let by_person := fun n => (week.filter (fun rw => rw.nama == n)).length
  let keys := List.insertionSort (fun a b => a ≤ b) (week.map Row.nama).dedup
  let violators := keys.filter (fun n => decide (max_per_minggu < by_person n))
  let res := violators.foldl (repairViolator df_people names max_per_minggu)
    (week, by_person, r)
  (res.1, res.2.2)

/-- The final safeguard assert (source line 184):
`(week_df.groupby("Nama").size() <= max_per_minggu).all()` - every name
occurring in the table occurs at most `max_per_minggu` times. -/
def capOK (week : List Row) (max_per_minggu : Nat) : Bool :=
  week.all (fun r => (week.filter (fun r2 => r2.nama == r.nama)).length ≤ max_per_minggu)

/-! ## One week (source `schedule_one_week`, lines 90-185) -/

/-- Source `schedule_one_week`.  The advisory `st.warning` about the minimum
roster size (lines 102-108) only displays text and does not affect the result,
so it has no counterpart here.  A failing final assert surfaces as the
`AssertionError` message, caught (like the shortage `RuntimeError`) by
`main`'s `try`/`except`. -/
def schedule_one_week (df_people : List (String × String)) (isHoliday : Nat → Bool)
    (monday_date orang_per_hari max_per_minggu : Nat) (larang_berturut : Bool)
    (random_seed : Option Nat) (entropy : Rng) : Except String (List Row) :=
  let work_days := workdays_in_week isHoliday monday_date
  let names := df_people.map Prod.fst
  let rng := match random_seed with
    | none => entropy
    | some s => rngOfSeed s
  match scheduleDays df_people orang_per_hari max_per_minggu larang_berturut
      work_days (fun _ => 0) (fun _ => none) rng with
  | .error e => .error e
  | .ok (week, r') =>
    let rep := repairPass df_people names max_per_minggu r' week
    if capOK rep.1 max_per_minggu then .ok rep.1
    else .error "Ada orang > cap mingguan"

/-! ## Multi-week generation and `main`'s validation (source lines 244-368) -/

/-- The `for wk in range(1, jumlah_minggu+1)` loop of `main` (lines 316-326):
week `wk` is scheduled for Monday `start + (wk-1)*7` with seed
`seed_value + wk` when a base seed is given, and with fresh entropy otherwise;
the first exception aborts the whole loop (the surrounding `try`). -/
def weeksLoop (df_people : List (String × String)) (isHoliday : Nat → Bool)
    (start orang_per_hari max_per_minggu : Nat) (larang_berturut : Bool)
    (seed_value : Option Nat) (entropy : Nat → Rng) :
    Nat → Nat → Except String (List (List Row))
  | _, 0 => .ok []
  | wk, left + 1 =>
    match schedule_one_week df_people isHoliday (start + (wk - 1) * 7)
        orang_per_hari max_per_minggu larang_berturut
        (seed_value.map (fun s => s + wk)) (entropy wk) with
    | .error e => .error e
    | .ok w =>
      match weeksLoop df_people isHoliday start orang_per_hari max_per_minggu
          larang_berturut seed_value entropy (wk + 1) left with
      | .error e => .error e
      | .ok ws => .ok (w :: ws)

/-- All weeks of one generation run, in order (the values of `all_weeks`). -/
def generate_all_weeks (df_people : List (String × String)) (isHoliday : Nat → Bool)
    (start jumlah_minggu orang_per_hari max_per_minggu : Nat) (larang_berturut : Bool)
    (seed_value : Option Nat) (entropy : Nat → Rng) : Except String (List (List Row)) :=
  weeksLoop df_people isHoliday start orang_per_hari max_per_minggu larang_berturut
    seed_value entropy 1 jumlah_minggu

/-- Model of pandas `.str.strip()` (source lines 297-298): remove leading and
trailing whitespace.  (Implemented structurally over the character list so
that it evaluates by kernel reduction.) -/
def strip (s : String) : String :=
  String.mk (((s.data.dropWhile Char.isWhitespace).reverse.dropWhile
    Char.isWhitespace).reverse)

/-- Outcome of `main` up to generation: the sidebar error messages displayed,
the validation message that stopped the flow (if any), and the generation
result when the flow reached the generate button. -/
structure MainRun where
  sidebar_errors : List String
  blocked : Option String
  result : Option (Except String (List (List Row)))

/-- Model of `main`'s flow from the parsed upload to generation (source lines
244-326).  The non-Monday check (lines 262-263) only displays an error in the
sidebar and does **not** return, so generation still runs for a non-Monday
start; the duplicate-name check (lines 299-301) and the slot-template length
check (lines 303-305) do return, blocking the run before any scheduling. -/
def mainRun (raw_people : List (String × String)) (start_date jumlah_minggu
    orang_per_hari max_per_minggu : Nat) (larang_berturut : Bool)
    (seed_value : Option Nat) (entropy : Nat → Rng) (isHoliday : Nat → Bool) : MainRun :=
  let sidebar := if weekday start_date ≠ 0 then ["Tanggal mulai harus hari Senin."] else []
  let df_people := raw_people.map (fun p => (strip p.1, strip p.2))
  let names := df_people.map Prod.fst
  if ¬ names.Nodup then
    ⟨sidebar, some "Ada duplikat Nama. Harus unik per orang.", none⟩
  else if SLOT_TEMPLATE.length ≠ orang_per_hari then
    ⟨sidebar,
      some ("Jumlah slot template (" ++ toString SLOT_TEMPLATE.length
        ++ ") ≠ orang per hari (" ++ toString orang_per_hari ++ "). Sesuaikan dulu."),
      none⟩
  else
    ⟨sidebar, none,
      some (generate_all_weeks df_people isHoliday start_date jumlah_minggu
        orang_per_hari max_per_minggu larang_berturut seed_value entropy)⟩

/-! ## Definitions taken from the claims' wording, for comparison -/

/-- The quota map as the source's tier loop consults it at every tier: the
loop (lines 127-134) only reads `quota`, which is updated nowhere before the
end-of-day loop (lines 155-158), so during the whole tier loop it is the
day-start map, unchanged. -/
def quotaDuringTierLoop (quota : String → Nat) : String → Nat := quota

/-- Selection state extended with the quota map, for the claimed
immediate-recording discipline. -/
structure SelStI where
  picks : List String
  remaining : Nat
  quota : String → Nat
  rng : Rng

/-- Modelled from the claim's wording (spec §4.2, step 1): a tier step that
records each taken person *immediately*, incrementing their count at the
moment they are appended to the pick list.  It exists only to compare the
claimed recording discipline with the source's tier loop, which reads an
unchanging `quota`. -/
def tierStepImmediate (names : List String) (max_per_minggu : Nat)
    (larang_berturut : Bool) (last_day : String → Option Nat) (d : Nat)
    (st : SelStI) (target_q : Nat) : SelStI :=
  if st.remaining = 0 then st
  else
    let group := names.filter (fun n =>
      st.quota n == target_q
        && eligible max_per_minggu larang_berturut st.quota last_day n d true
        && !(st.picks.contains n))
    let s := rngShuffle st.rng group
    let take := min group.length st.remaining
    let taken := s.1.take take
    ⟨st.picks ++ taken, st.remaining - take,
      taken.foldl (fun q nm => fun n => if n = nm then q nm + 1 else q n) st.quota, s.2⟩

/-- The tier loop under the claimed immediate-recording discipline. -/
def tierPhaseImmediate (names : List String) (orang_per_hari max_per_minggu : Nat)
    (larang_berturut : Bool) (quota : String → Nat) (last_day : String → Option Nat)
    (d : Nat) (r : Rng) : SelStI :=
  (List.range max_per_minggu).foldl
    (tierStepImmediate names max_per_minggu larang_berturut last_day d)
    ⟨[], orang_per_hari, quota, r⟩

end Piket

/-! # Proof development -/

namespace Piket

/-- Removing the element at a valid index and re-consing it permutes the list. -/
theorem getD_cons_eraseIdx_perm {l : List String} {i : Nat} (h : i < l.length) :
    (l.getD i "" :: l.eraseIdx i).Perm l := by
  have hg : l.getD i "" = l[i] := by
    rw [List.getD_eq_getElem?_getD, List.getElem?_eq_getElem h]; rfl
  rw [hg, List.eraseIdx_eq_take_drop_succ]
  have h1 : (l.take i ++ l[i] :: l.drop (i + 1)).Perm
      (l[i] :: (l.take i ++ l.drop (i + 1))) := List.perm_middle
  have h2 : l.take i ++ l[i] :: l.drop (i + 1) = l := by
    rw [List.getElem_cons_drop]; exact List.take_append_drop i l
  have h3 := h1.symm
  rw [h2] at h3
  exact h3

/-- The stream shuffle returns a permutation of its input, for any fuel. -/
theorem shuffleFuel_perm : ∀ (fuel : Nat) (r : Rng) (l : List String),
    ((shuffleFuel fuel r l).1).Perm l
  | 0, _, l => by simp [shuffleFuel]
  | _ + 1, _, [] => by simp [shuffleFuel]
  | fuel + 1, r, a :: as => by
    have hi : r.next.1 % (a :: as).length < (a :: as).length :=
      Nat.mod_lt _ (by simp)
    simpa [shuffleFuel] using
      ((shuffleFuel_perm fuel r.next.2 ((a :: as).eraseIdx _)).cons _).trans
        (getD_cons_eraseIdx_perm hi)

/-- The shuffle model returns a permutation of its input. -/
theorem rngShuffle_perm (r : Rng) (l : List String) : ((rngShuffle r l).1).Perm l :=
  shuffleFuel_perm _ _ _

theorem rngShuffle_length (r : Rng) (l : List String) :
    (rngShuffle r l).1.length = l.length :=
  (rngShuffle_perm r l).length_eq

theorem rngShuffle_mem {r : Rng} {l : List String} {x : String}
    (h : x ∈ (rngShuffle r l).1) : x ∈ l :=
  (rngShuffle_perm r l).mem_iff.mp h

theorem rngShuffle_nodup {r : Rng} {l : List String} (h : l.Nodup) :
    (rngShuffle r l).1.Nodup :=
  (rngShuffle_perm r l).nodup_iff.mpr h

theorem not_mem_of_contains_eq_false {l : List String} {a : String}
    (h : l.contains a = false) : a ∉ l := by
  intro hm
  rw [List.contains_eq_any_beq, Bool.eq_false_iff] at h
  exact h (List.any_eq_true.mpr ⟨a, hm, by simp⟩)

/-- The selection invariant threaded through one day's tier loop and
relaxation: no duplicate picks, the pick count and the open slots sum to the
daily requirement, and every pick is a roster member strictly under the cap. -/
def SelInv (names : List String) (max_per_minggu orang_per_hari : Nat)
    (quota : String → Nat) (st : SelSt) : Prop :=
  st.picks.Nodup ∧ st.picks.length + st.remaining = orang_per_hari ∧
    ∀ nm ∈ st.picks, nm ∈ names ∧ quota nm < max_per_minggu

theorem tierStep_eq_of_ne {names : List String} {cap : Nat} {larang : Bool}
    {quota : String → Nat} {last_day : String → Option Nat} {d : Nat}
    {st : SelSt} {tq : Nat} (h0 : st.remaining ≠ 0) :
    tierStep names cap larang quota last_day d st tq =
      ⟨st.picks ++ (rngShuffle st.rng (names.filter (fun n =>
          quota n == tq && eligible cap larang quota last_day n d true
            && !(st.picks.contains n)))).1.take
        (min (names.filter (fun n =>
          quota n == tq && eligible cap larang quota last_day n d true
            && !(st.picks.contains n))).length st.remaining),
       st.remaining - min (names.filter (fun n =>
          quota n == tq && eligible cap larang quota last_day n d true
            && !(st.picks.contains n))).length st.remaining,
       (rngShuffle st.rng (names.filter (fun n =>
          quota n == tq && eligible cap larang quota last_day n d true
            && !(st.picks.contains n)))).2⟩ := by
  unfold tierStep
  rw [if_neg h0]

theorem tierStep_inv {names : List String} {cap : Nat} {larang : Bool}
    {quota : String → Nat} {last_day : String → Option Nat} {d orang : Nat}
    (hn : names.Nodup) {st : SelSt} {tq : Nat} (htq : tq < cap)
    (h : SelInv names cap orang quota st) :
    SelInv names cap orang quota (tierStep names cap larang quota last_day d st tq) ∧
      ∀ nm ∈ (tierStep names cap larang quota last_day d st tq).picks.drop st.picks.length,
        nm ∉ st.picks := by
  obtain ⟨h1, h2, h3⟩ := h
  by_cases h0 : st.remaining = 0
  · unfold tierStep
    rw [if_pos h0]
    exact ⟨⟨h1, h2, h3⟩, by simp⟩
  · rw [tierStep_eq_of_ne h0]
    set group := names.filter (fun n =>
      quota n == tq && eligible cap larang quota last_day n d true
        && !(st.picks.contains n)) with hg
    set app := (rngShuffle st.rng group).1.take (min group.length st.remaining) with happ
    have hgmem : ∀ x ∈ group, x ∈ names ∧ quota x = tq ∧ x ∉ st.picks := by
      intro x hx
      rw [hg, List.mem_filter] at hx
      obtain ⟨hxn, hxp⟩ := hx
      simp only [Bool.and_eq_true, beq_iff_eq, Bool.not_eq_true'] at hxp
      exact ⟨hxn, hxp.1.1, not_mem_of_contains_eq_false hxp.2⟩
    have happg : ∀ x ∈ app, x ∈ group := fun x hx =>
      rngShuffle_mem (List.mem_of_mem_take hx)
    have happlen : app.length = min group.length st.remaining := by
      rw [happ, List.length_take, rngShuffle_length]
      omega
    have happnd : app.Nodup :=
      (List.take_sublist _ _).nodup (rngShuffle_nodup (hn.filter _))
    have hdisj : st.picks.Disjoint app := fun a ha hmem =>
      (hgmem a (happg a hmem)).2.2 ha
    refine ⟨⟨h1.append happnd hdisj, ?_, ?_⟩, ?_⟩
    · simp only [List.length_append]
      omega
    · intro nm hnm
      rcases List.mem_append.mp hnm with hold | hnew
      · exact h3 nm hold
      · obtain ⟨hna, hq, _⟩ := hgmem nm (happg nm hnew)
        exact ⟨hna, hq ▸ htq⟩
    · intro nm hnm
      rw [List.drop_left] at hnm
      exact (hgmem nm (happg nm hnm)).2.2

theorem tierFold_inv {names : List String} {cap : Nat} {larang : Bool}
    {quota : String → Nat} {last_day : String → Option Nat} {d orang : Nat}
    (hn : names.Nodup) :
    ∀ (l : List Nat) (st : SelSt), (∀ tq ∈ l, tq < cap) →
      SelInv names cap orang quota st →
      SelInv names cap orang quota
        (l.foldl (tierStep names cap larang quota last_day d) st)
  | [], _, _, h => h
  | tq :: rest, st, hl, h => by
    rw [List.foldl_cons]
    exact tierFold_inv hn rest _ (fun x hx => hl x (List.mem_cons_of_mem _ hx))
      (tierStep_inv hn (hl tq (List.mem_cons_self _ _)) h).1

/-- The tier loop establishes the selection invariant. -/
theorem tierPhase_inv {names : List String} {orang cap : Nat} {larang : Bool}
    {quota : String → Nat} {last_day : String → Option Nat} {d : Nat} {r : Rng}
    (hn : names.Nodup) :
    SelInv names cap orang quota (tierPhase names orang cap larang quota last_day d r) :=
  tierFold_inv hn (List.range cap) ⟨[], orang, r⟩
    (fun _ hx => List.mem_range.mp hx)
    ⟨List.nodup_nil, by simp, by simp⟩

theorem relaxPhase_eq_of_pos {names : List String} {cap : Nat}
    {quota : String → Nat} {st : SelSt} (h0 : 0 < st.remaining) :
    relaxPhase names cap quota st =
      ⟨st.picks ++ (rngShuffle st.rng (names.filter (fun n =>
          decide (quota n < cap) && !(st.picks.contains n)))).1.take
        (min (names.filter (fun n =>
          decide (quota n < cap) && !(st.picks.contains n))).length st.remaining),
       st.remaining - min (names.filter (fun n =>
          decide (quota n < cap) && !(st.picks.contains n))).length st.remaining,
       (rngShuffle st.rng (names.filter (fun n =>
          decide (quota n < cap) && !(st.picks.contains n)))).2⟩ := by
  unfold relaxPhase
  rw [if_pos h0]

theorem relaxPhase_inv {names : List String} {cap orang : Nat}
    {quota : String → Nat} {st : SelSt}
    (hn : names.Nodup) (h : SelInv names cap orang quota st) :
    SelInv names cap orang quota (relaxPhase names cap quota st) ∧
      ∀ nm ∈ (relaxPhase names cap quota st).picks.drop st.picks.length,
        nm ∉ st.picks := by
  obtain ⟨h1, h2, h3⟩ := h
  by_cases h0 : 0 < st.remaining
  · rw [relaxPhase_eq_of_pos h0]
    set group := names.filter (fun n => decide (quota n < cap) && !(st.picks.contains n))
      with hg
    set app := (rngShuffle st.rng group).1.take (min group.length st.remaining) with happ
    have hgmem : ∀ x ∈ group, x ∈ names ∧ quota x < cap ∧ x ∉ st.picks := by
      intro x hx
      rw [hg, List.mem_filter] at hx
      obtain ⟨hxn, hxp⟩ := hx
      simp only [Bool.and_eq_true, decide_eq_true_eq, Bool.not_eq_true'] at hxp
      exact ⟨hxn, hxp.1, not_mem_of_contains_eq_false hxp.2⟩
    have happg : ∀ x ∈ app, x ∈ group := fun x hx =>
      rngShuffle_mem (List.mem_of_mem_take hx)
    have happlen : app.length = min group.length st.remaining := by
      rw [happ, List.length_take, rngShuffle_length]
      omega
    have happnd : app.Nodup :=
      (List.take_sublist _ _).nodup (rngShuffle_nodup (hn.filter _))
    have hdisj : st.picks.Disjoint app := fun a ha hmem =>
      (hgmem a (happg a hmem)).2.2 ha
    refine ⟨⟨h1.append happnd hdisj, ?_, ?_⟩, ?_⟩
    · simp only [List.length_append]
      omega
    · intro nm hnm
      rcases List.mem_append.mp hnm with hold | hnew
      · exact h3 nm hold
      · obtain ⟨hna, hq, _⟩ := hgmem nm (happg nm hnew)
        exact ⟨hna, hq⟩
    · intro nm hnm
      rw [List.drop_left] at hnm
      exact (hgmem nm (happg nm hnm)).2.2
  · unfold relaxPhase
    rw [if_neg h0]
    exact ⟨⟨h1, h2, h3⟩, by simp⟩

/-- The whole daily selection establishes the invariant. -/
theorem selectDay_inv {names : List String} {orang cap : Nat} {larang : Bool}
    {quota : String → Nat} {last_day : String → Option Nat} {d : Nat} {r : Rng}
    (hn : names.Nodup) :
    SelInv names cap orang quota
      (selectDay names orang cap larang quota last_day d r) :=
  (relaxPhase_inv hn (tierPhase_inv hn)).1

theorem mem_of_contains_eq_true {l : List String} {a : String}
    (h : l.contains a = true) : a ∈ l := by
  rw [List.contains_eq_any_beq, List.any_eq_true] at h
  obtain ⟨b, hb, hab⟩ := h
  exact (eq_of_beq hab) ▸ hb

/-- Exact characterisation of the shortage condition of one day: the selection
leaves slots unfilled precisely when fewer than `orang_per_hari` roster
members are under the weekly cap at the start of the day. -/
theorem selectDay_remaining_ne_iff {names : List String} {orang cap : Nat}
    {larang : Bool} {quota : String → Nat} {last_day : String → Option Nat}
    {d : Nat} {r : Rng} (hn : names.Nodup) :
    (selectDay names orang cap larang quota last_day d r).remaining ≠ 0 ↔
      (names.filter (fun n => decide (quota n < cap))).length < orang := by
  set u := names.filter (fun n => decide (quota n < cap)) with hu
  have hund : u.Nodup := hn.filter _
  have hsubu : ∀ (st : SelSt), SelInv names cap orang quota st → st.picks ⊆ u := by
    intro st hst x hx
    obtain ⟨hxn, hxq⟩ := hst.2.2 x hx
    rw [hu, List.mem_filter]
    exact ⟨hxn, by simpa using hxq⟩
  constructor
  · intro hne
    by_contra hge
    push_neg at hge
    apply hne
    set st1 := tierPhase names orang cap larang quota last_day d r with hst1
    have hinv1 := @tierPhase_inv names orang cap larang quota last_day d r hn
    rw [← hst1] at hinv1
    obtain ⟨hnd1, hlen1, hmem1⟩ := hinv1
    by_cases h0 : 0 < st1.remaining
    · -- the relaxed candidate set is large enough to fill all slots
      show (relaxPhase names cap quota st1).remaining = 0
      rw [relaxPhase_eq_of_pos h0]
      set g := names.filter (fun n => decide (quota n < cap) && !(st1.picks.contains n))
        with hgdef
      have hgu : g = u.filter (fun n => !(st1.picks.contains n)) := by
        rw [hu, List.filter_filter, hgdef]
        exact (List.filter_congr (fun a _ => Bool.and_comm _ _)).symm
      have hsplit := List.length_eq_length_filter_add
        (l := u) (fun n => !(st1.picks.contains n))
      have hdouble : (u.filter (fun n => !(!(st1.picks.contains n)))) =
          u.filter (fun n => st1.picks.contains n) :=
        List.filter_congr (fun a _ => Bool.not_not _)
      rw [hdouble] at hsplit
      have hcle : (u.filter (fun n => st1.picks.contains n)).length ≤ st1.picks.length := by
        refine (List.subperm_of_subset (hund.filter _) ?_).length_le
        intro x hx
        rw [List.mem_filter] at hx
        exact mem_of_contains_eq_true hx.2
      have hglen : st1.remaining ≤ g.length := by
        rw [hgu]
        omega
      simp only []
      omega
    · show (relaxPhase names cap quota st1).remaining = 0
      unfold relaxPhase
      rw [if_neg h0]
      omega
  · intro hlt
    have hinv := @selectDay_inv names orang cap larang quota last_day d r hn
    have hple : (selectDay names orang cap larang quota last_day d r).picks.length ≤
        u.length :=
      (List.subperm_of_subset hinv.1 (hsubu _ hinv)).length_le
    have hlen := hinv.2.1
    omega


/-! ## Facts about the day table -/

theorem zip_snd_fst_eq : ∀ {l1 : List Nat} {l2 l3 : List String},
    l1.length = l2.length → l2.length ≤ l3.length →
    ((l1.zip (l2.zip l3)).map (fun p => p.2.1)) = l2
  | [], [], _, _, _ => by simp
  | [], _ :: _, _, h1, _ => by simp at h1
  | _ :: _, [], _, h1, _ => by simp at h1
  | _ :: _, _ :: _, [], _, h2 => by simp at h2
  | a :: as, b :: bs, c :: cs, h1, h2 => by
    simp only [List.zip_cons_cons, List.map_cons]
    rw [zip_snd_fst_eq (by simpa using h1) (by simpa using h2)]

/-- On a successful day the name column of the day block is exactly the pick
list. -/
theorem day_df_map_nama {df_people : List (String × String)} {orang : Nat}
    {picks : List String} {d : Nat}
    (h1 : picks.length = orang) (h2 : orang ≤ SLOT_TEMPLATE.length) :
    (day_df df_people orang picks d).map Row.nama = picks := by
  unfold day_df
  rw [List.map_map]
  have hc : (Row.nama ∘ fun p : Nat × String × String =>
      (⟨p.1 + 1, p.2.1, lookupTeam df_people p.2.1, p.2.2, d⟩ : Row)) =
      fun p : Nat × String × String => p.2.1 := rfl
  rw [hc, List.take_of_length_le (le_of_eq h1)]
  exact zip_snd_fst_eq (by simp [h1]) (h1 ▸ h2)

theorem day_df_tanggal {df_people : List (String × String)} {orang : Nat}
    {picks : List String} {d : Nat} :
    ∀ rw ∈ day_df df_people orang picks d, rw.tanggal = d := by
  intro rw hrw
  unfold day_df at hrw
  rw [List.mem_map] at hrw
  obtain ⟨p, _, hp⟩ := hrw
  rw [← hp]

theorem day_df_length {df_people : List (String × String)} {orang : Nat}
    {picks : List String} {d : Nat}
    (h1 : picks.length = orang) (h2 : orang ≤ SLOT_TEMPLATE.length) :
    (day_df df_people orang picks d).length = orang := by
  have h := congrArg List.length (@day_df_map_nama df_people orang picks d h1 h2)
  rw [List.length_map] at h
  omega

/-! ## Facts about the day loop -/

/-- On success, every row of the week belongs to one of the requested days,
and each requested day's block has pairwise-distinct names and exactly
`orang_per_hari` rows. -/
theorem scheduleDays_ok_facts {df_people : List (String × String)} {orang cap : Nat}
    {larang : Bool} (hn : (df_people.map Prod.fst).Nodup)
    (ht : orang ≤ SLOT_TEMPLATE.length) :
    ∀ (days : List Nat) (quota : String → Nat) (last_day : String → Option Nat)
      (r : Rng) (rows : List Row) (r' : Rng),
      days.Nodup →
      scheduleDays df_people orang cap larang days quota last_day r = .ok (rows, r') →
      (∀ rw ∈ rows, rw.tanggal ∈ days) ∧
        ∀ d ∈ days, ((rows.filter (fun rw => rw.tanggal == d)).map Row.nama).Nodup ∧
          (rows.filter (fun rw => rw.tanggal == d)).length = orang := by
  intro days
  induction days with
  | nil =>
    intro quota last_day r rows r' _ hok
    simp only [scheduleDays] at hok
    obtain ⟨h1, _⟩ := Prod.mk.injEq .. ▸ (Except.ok.injEq _ _ ▸ hok)
    simp [← h1]
  | cons d rest ih =>
    intro quota last_day r rows r' hnd hok
    simp only [scheduleDays] at hok
    split at hok
    · exact absurd hok (by simp)
    · rename_i h0
      split at hok
      · exact absurd hok (by simp)
      · rename_i rows' r'' heq
        rw [Except.ok.injEq, Prod.mk.injEq] at hok
        obtain ⟨hrows, _⟩ := hok
        have hrem : (selectDay (df_people.map Prod.fst) orang cap larang
            quota last_day d r).remaining = 0 := by omega
        obtain ⟨hpnd, hplen, hpmem⟩ := @selectDay_inv (df_people.map Prod.fst)
          orang cap larang quota last_day d r hn
        have hplen' : (selectDay (df_people.map Prod.fst) orang cap larang
            quota last_day d r).picks.length = orang := by omega
        have hdnd : rest.Nodup := hnd.of_cons
        have hdnm : d ∉ rest := by
          rw [List.nodup_cons] at hnd
          exact hnd.1
        obtain ⟨ihmem, ihday⟩ := ih _ _ _ _ _ hdnd heq
        have hday_nama := @day_df_map_nama df_people orang
          (selectDay (df_people.map Prod.fst) orang cap larang
            quota last_day d r).picks d hplen' ht
        have hday_tg := @day_df_tanggal df_people orang
          (selectDay (df_people.map Prod.fst) orang cap larang
            quota last_day d r).picks d
        constructor
        · intro rw hrw
          rw [← hrows, List.mem_append] at hrw
          rcases hrw with hl | hr
          · rw [hday_tg rw hl]
            exact List.mem_cons_self _ _
          · exact List.mem_cons_of_mem _ (ihmem rw hr)
        · intro d' hd'
          rcases List.mem_cons.mp hd' with hdd | hdr
          · subst hdd
            have hfl : (rows.filter (fun rw => rw.tanggal == d')) =
                day_df df_people orang (selectDay (df_people.map Prod.fst) orang cap
                  larang quota last_day d' r).picks d' := by
              rw [← hrows, List.filter_append]
              have e1 : (day_df df_people orang (selectDay (df_people.map Prod.fst)
                  orang cap larang quota last_day d' r).picks d').filter
                  (fun rw => rw.tanggal == d') =
                  day_df df_people orang (selectDay (df_people.map Prod.fst) orang cap
                    larang quota last_day d' r).picks d' := by
                rw [List.filter_eq_self]
                intro a ha
                rw [hday_tg a ha]
                exact beq_self_eq_true _
              have e2 : rows'.filter (fun rw => rw.tanggal == d') = [] := by
                rw [List.filter_eq_nil_iff]
                intro a ha hcon
                rw [beq_iff_eq] at hcon
                exact hdnm (hcon ▸ ihmem a ha)
              rw [e1, e2, List.append_nil]
            rw [hfl, hday_nama]
            exact ⟨hpnd, day_df_length hplen' ht⟩
          · have hne : d ≠ d' := fun hcon => hdnm (hcon ▸ hdr)
            have hfl : rows.filter (fun rw => rw.tanggal == d') =
                rows'.filter (fun rw => rw.tanggal == d') := by
              rw [← hrows, List.filter_append]
              have e1 : (day_df df_people orang (selectDay (df_people.map Prod.fst)
                  orang cap larang quota last_day d r).picks d).filter
                  (fun rw => rw.tanggal == d') = [] := by
                rw [List.filter_eq_nil_iff]
                intro a ha hcon
                rw [beq_iff_eq] at hcon
                exact hne ((hday_tg a ha).symm.trans hcon)
              rw [e1, List.nil_append]
            rw [hfl]
            exact ihday d' hdr



/-! ## Facts about the repair pass -/

theorem used_today_cons (a : Row) (t : List Row) (d : Nat) :
    used_today (a :: t) d =
      if a.tanggal == d then a.nama :: used_today t d else used_today t d := by
  rw [used_today, used_today, List.filter_cons]
  by_cases h : (a.tanggal == d) = true
  · rw [if_pos h, if_pos h, List.map_cons]
  · rw [if_neg h, if_neg h]

theorem mem_used_today {w : List Row} {d : Nat} {x : String} :
    x ∈ used_today w d ↔ ∃ rw ∈ w, rw.tanggal = d ∧ rw.nama = x := by
  rw [used_today]
  constructor
  · intro hx
    rw [List.mem_map] at hx
    obtain ⟨rw, hrw, hn⟩ := hx
    rw [List.mem_filter] at hrw
    exact ⟨rw, hrw.1, beq_iff_eq.mp hrw.2, hn⟩
  · intro ⟨rw, hw, ht, hn⟩
    rw [List.mem_map]
    exact ⟨rw, List.mem_filter.mpr ⟨hw, beq_iff_eq.mpr ht⟩, hn⟩

/-- A name present on day `d` after an in-place row replacement was either
present before, or is the replacement name on the replaced row's day. -/
theorem mem_used_today_set {w : List Row} {i : Nat} {r' : Row} {d : Nat} {x : String}
    (hx : x ∈ used_today (w.set i r') d) :
    x ∈ used_today w d ∨ (x = r'.nama ∧ d = r'.tanggal) := by
  rw [mem_used_today] at hx
  obtain ⟨rw, hmem, htg, hname⟩ := hx
  rcases List.mem_or_eq_of_mem_set hmem with hw | he
  · exact Or.inl (mem_used_today.mpr ⟨rw, hw, htg, hname⟩)
  · subst he
    exact Or.inr ⟨hname.symm, htg.symm⟩

/-- Replacing a row by one with the same date preserves all per-day row
counts. -/
theorem filter_tanggal_length_set : ∀ (w : List Row) (i : Nat) (r' : Row),
    r'.tanggal = (w.getD i default).tanggal →
    ∀ d, ((w.set i r').filter (fun rw => rw.tanggal == d)).length =
      (w.filter (fun rw => rw.tanggal == d)).length
  | [], _, _, _, _ => by simp
  | a :: t, 0, r', h, d => by
    rw [List.getD_cons_zero] at h
    rw [List.set_cons_zero, List.filter_cons, List.filter_cons, h]
    by_cases hd : (a.tanggal == d) = true
    · rw [if_pos hd, if_pos hd]
      simp
    · rw [if_neg hd, if_neg hd]
  | a :: t, i + 1, r', h, d => by
    rw [List.getD_cons_succ] at h
    rw [List.set_cons_succ, List.filter_cons, List.filter_cons]
    by_cases hd : (a.tanggal == d) = true
    · rw [if_pos hd, if_pos hd]
      simp [filter_tanggal_length_set t i r' h d]
    · rw [if_neg hd, if_neg hd]
      exact filter_tanggal_length_set t i r' h d

/-- Replacing a row by one with the same date and a name fresh for that day
preserves per-day name uniqueness. -/
theorem used_today_nodup_set : ∀ (w : List Row) (i : Nat) (r' : Row),
    r'.tanggal = (w.getD i default).tanggal →
    r'.nama ∉ used_today w r'.tanggal →
    (∀ d, (used_today w d).Nodup) →
    ∀ d, (used_today (w.set i r') d).Nodup
  | [], _, _, _, _, _, d => by simp [used_today]
  | a :: t, 0, r', h, hfresh, hnd, d => by
    rw [List.getD_cons_zero] at h
    rw [List.set_cons_zero, used_today_cons]
    have hcons := hnd d
    rw [used_today_cons] at hcons
    by_cases hd : (r'.tanggal == d) = true
    · rw [if_pos hd]
      have hd' : a.tanggal = d := h ▸ beq_iff_eq.mp hd
      have had : (a.tanggal == d) = true := beq_iff_eq.mpr hd'
      rw [if_pos had] at hcons
      refine List.nodup_cons.mpr ⟨?_, hcons.of_cons⟩
      have hdr : d = r'.tanggal := (beq_iff_eq.mp hd).symm
      subst hdr
      rw [used_today_cons, if_pos had] at hfresh
      exact fun hc => hfresh (List.mem_cons_of_mem _ hc)
    · rw [if_neg hd]
      have had : (a.tanggal == d) = false := by
        rw [beq_eq_false_iff_ne]
        rw [← h]
        exact beq_eq_false_iff_ne.mp (Bool.eq_false_iff.mpr hd)
      rw [if_neg (by rw [had]; exact Bool.false_ne_true)] at hcons
      exact hcons
  | a :: t, i + 1, r', h, hfresh, hnd, d => by
    rw [List.getD_cons_succ] at h
    have hndt : ∀ d, (used_today t d).Nodup := by
      intro d'
      have := hnd d'
      rw [used_today_cons] at this
      by_cases hd' : (a.tanggal == d') = true
      · rw [if_pos hd'] at this
        exact this.of_cons
      · rw [if_neg hd'] at this
        exact this
    have hfresht : r'.nama ∉ used_today t r'.tanggal := by
      intro hc
      apply hfresh
      rw [used_today_cons]
      by_cases hd' : (a.tanggal == r'.tanggal) = true
      · rw [if_pos hd']
        exact List.mem_cons_of_mem _ hc
      · rw [if_neg hd']
        exact hc
    have ih := used_today_nodup_set t i r' h hfresht hndt
    rw [List.set_cons_succ, used_today_cons]
    by_cases hd : (a.tanggal == d) = true
    · rw [if_pos hd]
      refine List.nodup_cons.mpr ⟨?_, ih d⟩
      intro hc
      rcases mem_used_today_set hc with hold | ⟨hnm, hdd⟩
      · have := hnd d
        rw [used_today_cons, if_pos hd] at this
        exact (List.nodup_cons.mp this).1 hold
      · apply hfresh
        rw [← hdd, ← hnm]
        rw [used_today_cons, if_pos hd]
        exact List.mem_cons_self _ _
    · rw [if_neg hd]
      exact ih d

/-- The per-day invariant the repair pass preserves: distinct names per day
and fixed per-day row counts. -/
def RepInv (L : Nat → Nat) (w : List Row) : Prop :=
  (∀ d, (used_today w d).Nodup) ∧
    ∀ d, (w.filter (fun rw => rw.tanggal == d)).length = L d

theorem rngChoice_mem {r : Rng} {l : List String} (h : l ≠ []) :
    (rngChoice r l).1 ∈ l := by
  unfold rngChoice
  have hl : 0 < l.length := List.length_pos.mpr h
  have hi : r.next.1 % l.length < l.length := Nat.mod_lt _ hl
  show l.getD (r.next.1 % l.length) "" ∈ l
  rw [List.getD_eq_getElem?_getD, List.getElem?_eq_getElem hi]
  exact List.getElem_mem hi

theorem repairRow_inv {df_people : List (String × String)} {names : List String}
    {cap : Nat} {nm : String} {L : Nat → Nat} {st : RepSt} {ridx : Nat}
    (h : RepInv L st.week) :
    RepInv L (repairRow df_people names cap nm st ridx).week := by
  simp only [repairRow]
  split
  · exact h
  · split
    · exact h
    · rename_i hne
      set row := st.week.getD ridx default with hrow
      set cands := names.filter (fun k =>
        !(used_today st.week row.tanggal).contains k && decide (st.cnt k < cap))
        with hcands
      have hcne : cands ≠ [] := by
        intro hc
        rw [hc] at hne
        exact hne rfl
      have hkmem : (rngChoice st.rng cands).1 ∈ cands := rngChoice_mem hcne
      have hknotused : (rngChoice st.rng cands).1 ∉ used_today st.week row.tanggal := by
        rw [hcands, List.mem_filter] at hkmem
        obtain ⟨_, hp⟩ := hkmem
        rw [Bool.and_eq_true, Bool.not_eq_true'] at hp
        exact not_mem_of_contains_eq_false hp.1
      constructor
      · intro d
        show (used_today (st.week.set ridx
          ⟨row.no, (rngChoice st.rng cands).1,
            lookupTeam df_people (rngChoice st.rng cands).1, row.gedung,
            row.tanggal⟩) d).Nodup
        exact used_today_nodup_set st.week ridx
          ⟨row.no, (rngChoice st.rng cands).1,
            lookupTeam df_people (rngChoice st.rng cands).1, row.gedung,
            row.tanggal⟩ rfl hknotused h.1 d
      · intro d
        show (List.filter (fun rw => rw.tanggal == d) (st.week.set ridx
          ⟨row.no, (rngChoice st.rng cands).1,
            lookupTeam df_people (rngChoice st.rng cands).1, row.gedung,
            row.tanggal⟩)).length = L d
        rw [filter_tanggal_length_set st.week ridx
          ⟨row.no, (rngChoice st.rng cands).1,
            lookupTeam df_people (rngChoice st.rng cands).1, row.gedung,
            row.tanggal⟩ rfl d]
        exact h.2 d

theorem repairRow_fold_inv {df_people : List (String × String)} {names : List String}
    {cap : Nat} {nm : String} {L : Nat → Nat} :
    ∀ (idxs : List Nat) (st : RepSt), RepInv L st.week →
      RepInv L (idxs.foldl (repairRow df_people names cap nm) st).week
  | [], _, h => h
  | i :: is, st, h => by
    rw [List.foldl_cons]
    exact repairRow_fold_inv is _ (repairRow_inv h)

theorem repairViolator_inv {df_people : List (String × String)} {names : List String}
    {cap : Nat} {nm : String} {L : Nat → Nat}
    {acc : List Row × (String → Nat) × Rng} (h : RepInv L acc.1) :
    RepInv L (repairViolator df_people names cap acc nm).1 := by
  rw [repairViolator]
  exact repairRow_fold_inv _ _ h

theorem repairViolator_fold_inv {df_people : List (String × String)}
    {names : List String} {cap : Nat} {L : Nat → Nat} :
    ∀ (vs : List String) (acc : List Row × (String → Nat) × Rng), RepInv L acc.1 →
      RepInv L ((vs.foldl (repairViolator df_people names cap) acc)).1
  | [], _, h => h
  | v :: vs, acc, h => by
    rw [List.foldl_cons]
    exact repairViolator_fold_inv vs _ (repairViolator_inv h)

/-- The repair pass preserves per-day name uniqueness and per-day row counts. -/
theorem repairPass_inv {df_people : List (String × String)} {names : List String}
    {cap : Nat} {r : Rng} {week : List Row} {L : Nat → Nat} (h : RepInv L week) :
    RepInv L (repairPass df_people names cap r week).1 := by
  rw [repairPass]
  exact repairViolator_fold_inv _ _ h



/-! ## Facts about one week and the multi-week loop -/

/-- What success of `schedule_one_week` yields: a successful day loop, the
repaired table, and a passed final cap assert. -/
theorem schedule_one_week_ok_inv {df_people : List (String × String)}
    {isHoliday : Nat → Bool} {monday orang cap : Nat} {larang : Bool}
    {random_seed : Option Nat} {entropy : Rng} {w : List Row}
    (hok : schedule_one_week df_people isHoliday monday orang cap larang
      random_seed entropy = .ok w) :
    ∃ week rng', scheduleDays df_people orang cap larang
        (workdays_in_week isHoliday monday) (fun _ => 0) (fun _ => none)
        (match random_seed with | none => entropy | some s => rngOfSeed s) =
          .ok (week, rng') ∧
      w = (repairPass df_people (df_people.map Prod.fst) cap rng' week).1 ∧
      capOK w cap = true := by
  simp only [schedule_one_week] at hok
  split at hok
  · exact absurd hok (by simp)
  · rename_i week rng' heq
    split at hok
    · rename_i hcap
      rw [Except.ok.injEq] at hok
      exact ⟨week, rng', heq, hok.symm, hok ▸ hcap⟩
    · exact absurd hok (by simp)

/-- The passed assert bounds every name's weekly count. -/
theorem capOK_count {week : List Row} {cap : Nat} (h : capOK week cap = true)
    (nm : String) : (week.filter (fun rw => rw.nama == nm)).length ≤ cap := by
  by_cases hz : (week.filter (fun rw => rw.nama == nm)).length = 0
  · omega
  · have hpos : 0 < (week.filter (fun rw => rw.nama == nm)).length := by omega
    rw [List.length_pos] at hpos
    obtain ⟨rw, hrw⟩ := List.exists_mem_of_ne_nil _ hpos
    rw [List.mem_filter] at hrw
    obtain ⟨hmem, hname⟩ := hrw
    rw [capOK, List.all_eq_true] at h
    have := h rw hmem
    rw [beq_iff_eq] at hname
    simp only [decide_eq_true_eq] at this
    have he : (fun r2 : Row => r2.nama == rw.nama) = (fun r2 : Row => r2.nama == nm) := by
      funext r2
      rw [hname]
    rw [he] at this
    exact this

/-- With a supplied seed the week result is independent of the ambient
entropy: the generator is derived from the seed alone. -/
theorem schedule_one_week_seed_indep (df_people : List (String × String))
    (isHoliday : Nat → Bool) (monday orang cap : Nat) (larang : Bool)
    (s : Nat) (e1 e2 : Rng) :
    schedule_one_week df_people isHoliday monday orang cap larang (some s) e1 =
      schedule_one_week df_people isHoliday monday orang cap larang (some s) e2 := rfl

/-- Index/length facts for the multi-week loop on success: week `wk + j` is
exactly the result of `schedule_one_week` at its own Monday and seed. -/
theorem weeksLoop_ok_facts {df_people : List (String × String)}
    {isHoliday : Nat → Bool} {start orang cap : Nat} {larang : Bool}
    {seed_value : Option Nat} {entropy : Nat → Rng} :
    ∀ (left wk : Nat) (ws : List (List Row)),
      weeksLoop df_people isHoliday start orang cap larang seed_value entropy
        wk left = .ok ws →
      ws.length = left ∧ ∀ j, j < left →
        ws[j]? = (schedule_one_week df_people isHoliday (start + (wk + j - 1) * 7)
          orang cap larang (seed_value.map (fun s => s + (wk + j)))
          (entropy (wk + j))).toOption
  | 0, wk, ws, hok => by
    simp only [weeksLoop] at hok
    rw [Except.ok.injEq] at hok
    exact ⟨by rw [← hok]; rfl, fun j hj => absurd hj (by omega)⟩
  | left + 1, wk, ws, hok => by
    simp only [weeksLoop] at hok
    split at hok
    · exact absurd hok (by simp)
    · rename_i w heq
      split at hok
      · exact absurd hok (by simp)
      · rename_i ws' heq'
        rw [Except.ok.injEq] at hok
        obtain ⟨hlen, hidx⟩ := weeksLoop_ok_facts left (wk + 1) ws' heq'
        constructor
        · rw [← hok, List.length_cons, hlen]
        · intro j hj
          cases j with
          | zero =>
            rw [← hok]
            simp only [List.getElem?_cons_zero, Nat.add_zero]
            rw [heq]
            rfl
          | succ j =>
            rw [← hok]
            simp only [List.getElem?_cons_succ]
            have harith : wk + 1 + j = wk + (j + 1) := by omega
            have := hidx j (by omega)
            rw [harith] at this
            exact this

/-- Index/length facts for a whole generation run on success. -/
theorem generate_all_weeks_ok_facts {df_people : List (String × String)}
    {isHoliday : Nat → Bool} {start weeks orang cap : Nat} {larang : Bool}
    {seed_value : Option Nat} {entropy : Nat → Rng} {ws : List (List Row)}
    (hok : generate_all_weeks df_people isHoliday start weeks orang cap larang
      seed_value entropy = .ok ws) :
    ws.length = weeks ∧ ∀ wk, 1 ≤ wk → wk ≤ weeks →
      ws[wk - 1]? = (schedule_one_week df_people isHoliday (start + (wk - 1) * 7)
        orang cap larang (seed_value.map (fun s => s + wk))
        (entropy wk)).toOption := by
  obtain ⟨hlen, hidx⟩ := weeksLoop_ok_facts weeks 1 ws hok
  refine ⟨hlen, fun wk h1 h2 => ?_⟩
  have := hidx (wk - 1) (by omega)
  have he : 1 + (wk - 1) = wk := by omega
  rw [he] at this
  exact this

/-- In seeded mode the whole multi-week loop is independent of the ambient
entropy source. -/
theorem weeksLoop_entropy_indep {df_people : List (String × String)}
    {isHoliday : Nat → Bool} {start orang cap : Nat} {larang : Bool} {s : Nat}
    (e1 e2 : Nat → Rng) :
    ∀ (left wk : Nat),
      weeksLoop df_people isHoliday start orang cap larang (some s) e1 wk left =
        weeksLoop df_people isHoliday start orang cap larang (some s) e2 wk left
  | 0, _ => rfl
  | left + 1, wk => by
    simp only [weeksLoop, Option.map_some']
    rw [schedule_one_week_seed_indep df_people isHoliday (start + (wk - 1) * 7)
      orang cap larang (s + wk) (e1 wk) (e2 wk)]
    rw [weeksLoop_entropy_indep e1 e2 left (wk + 1)]



theorem workdays_in_week_nodup (isHoliday : Nat → Bool) (monday : Nat) :
    (workdays_in_week isHoliday monday).Nodup := by
  rw [workdays_in_week]
  refine List.Nodup.filter _ (List.Nodup.map ?_ (List.nodup_range 5))
  intro a b hab
  dsimp only at hab
  omega

/-- Newly appended people of one tier step were not previously picked. -/
theorem tierStep_new_not_mem {names : List String} {cap : Nat} {larang : Bool}
    {quota : String → Nat} {last_day : String → Option Nat} {d : Nat}
    (st : SelSt) (tq : Nat) :
    ∀ nm ∈ (tierStep names cap larang quota last_day d st tq).picks.drop
      st.picks.length, nm ∉ st.picks := by
  by_cases h0 : st.remaining = 0
  · unfold tierStep
    rw [if_pos h0]
    simp
  · rw [tierStep_eq_of_ne h0]
    intro nm hnm
    rw [List.drop_left] at hnm
    have hg : nm ∈ names.filter (fun n =>
        quota n == tq && eligible cap larang quota last_day n d true
          && !(st.picks.contains n)) :=
      rngShuffle_mem (List.mem_of_mem_take hnm)
    rw [List.mem_filter] at hg
    have hp := hg.2
    simp only [Bool.and_eq_true, Bool.not_eq_true'] at hp
    exact not_mem_of_contains_eq_false hp.2

/-! # Claim theorems -/

/-- C1: whenever `schedule_one_week` returns normally, every person's number
of rows in the returned week table is at most `max_per_minggu`; the
postcondition is the assert checked after the repair pass, and a failing
check turns the run into an error instead of a result. -/
theorem C1_cap_invariant (df_people : List (String × String)) (isHoliday : Nat → Bool)
    (monday orang cap : Nat) (larang : Bool) (random_seed : Option Nat)
    (entropy : Rng) (w : List Row)
    (hok : schedule_one_week df_people isHoliday monday orang cap larang
      random_seed entropy = .ok w) :
    ∀ nm, (w.filter (fun rw => rw.nama == nm)).length ≤ cap := by
  obtain ⟨week, rng', _, _, hcap⟩ := schedule_one_week_ok_inv hok
  exact capOK_count hcap

theorem C1_witness :
    (([⟨1, "A", some "TIM", "A1,3,5,7", 8⟩] : List Row).filter
      (fun rw => rw.nama == "A")).length ≤ 1 :=
  C1_cap_invariant [("A", "TIM")] (fun d => !(d == 8)) 8 1 1 true (some 0)
    ⟨fun _ => 0, 0⟩ [⟨1, "A", some "TIM", "A1,3,5,7", 8⟩] (by rfl) "A" 

/-- C2: in a normally returned week with a duplicate-free roster and a slot
template at least as long as the daily requirement (the configuration `main`
validates), every workday's block assigns `orang_per_hari` pairwise-distinct
people; the property is established by the day selection and preserved by the
repair pass, whose candidates exclude the people already on the row's day. -/
theorem C2_daily_uniqueness (df_people : List (String × String))
    (isHoliday : Nat → Bool) (monday orang cap : Nat) (larang : Bool)
    (random_seed : Option Nat) (entropy : Rng) (w : List Row)
    (hn : (df_people.map Prod.fst).Nodup) (ht : orang ≤ SLOT_TEMPLATE.length)
    (hok : schedule_one_week df_people isHoliday monday orang cap larang
      random_seed entropy = .ok w) :
    ∀ d ∈ workdays_in_week isHoliday monday,
      ((w.filter (fun rw => rw.tanggal == d)).map Row.nama).Nodup ∧
        (w.filter (fun rw => rw.tanggal == d)).length = orang := by
  obtain ⟨week, rng', hdays, hw, _⟩ := schedule_one_week_ok_inv hok
  obtain ⟨hmem, hday⟩ := scheduleDays_ok_facts hn ht _ _ _ _ _ _
    (workdays_in_week_nodup isHoliday monday) hdays
  have hinv : RepInv (fun d => (week.filter (fun rw => rw.tanggal == d)).length) week := by
    constructor
    · intro d
      by_cases hd : d ∈ workdays_in_week isHoliday monday
      · exact (hday d hd).1
      · have hnil : week.filter (fun rw => rw.tanggal == d) = [] := by
          rw [List.filter_eq_nil_iff]
          intro a ha hc
          rw [beq_iff_eq] at hc
          exact hd (hc ▸ hmem a ha)
        rw [used_today, hnil]
        exact List.nodup_nil
    · intro d
      rfl
  have hrep := @repairPass_inv df_people (df_people.map Prod.fst) cap rng' week
    (fun d => (week.filter (fun rw => rw.tanggal == d)).length) hinv
  intro d hd
  constructor
  · rw [hw]
    exact hrep.1 d
  · rw [hw, hrep.2 d]
    exact (hday d hd).2

theorem C2_witness :
    ((([⟨1, "A", some "TIM", "A1,3,5,7", 8⟩] : List Row).filter
      (fun rw => rw.tanggal == 8)).map Row.nama).Nodup ∧
    (([⟨1, "A", some "TIM", "A1,3,5,7", 8⟩] : List Row).filter
      (fun rw => rw.tanggal == 8)).length = 1 :=
  C2_daily_uniqueness [("A", "TIM")] (fun d => !(d == 8)) 8 1 1 true (some 0)
    ⟨fun _ => 0, 0⟩ [⟨1, "A", some "TIM", "A1,3,5,7", 8⟩] (by decide) (by decide)
    (by rfl) 8 (by decide)

/-- C5 counterexample: in the source's tier loop the weekly count of a person
just appended to the pick list is *not* incremented at that moment: the loop
consults the unchanged day-start quota map at every tier ("A" still counts 0
while already picked), whereas the claimed immediate-recording discipline
(`tierPhaseImmediate`, built from the claim's wording) would show count 1. -/
theorem C5_counterexample :
    "A" ∈ (tierPhase ["A", "B"] 2 2 false (fun _ => 0) (fun _ => none) 8
      ⟨fun _ => 0, 0⟩).picks ∧
    quotaDuringTierLoop (fun _ => 0) "A" = 0 ∧
    (tierPhaseImmediate ["A", "B"] 2 2 false (fun _ => 0) (fun _ => none) 8
      ⟨fun _ => 0, 0⟩).quota "A" = 1 :=
  ⟨by decide, rfl, by decide⟩

/-- C5 amended: each person taken at a tier is appended to the day's pick
list immediately, and later tiers never re-select them because every tier's
candidate filter excludes the current pick list (with a duplicate-free roster
the final pick list is duplicate-free); the quota map consulted by the loop
stays the day-start map - counts are only updated in the end-of-day loop. -/
theorem C5_amended (names : List String) (orang cap : Nat) (larang : Bool)
    (quota : String → Nat) (last_day : String → Option Nat) (d : Nat) (r : Rng)
    (hn : names.Nodup) :
    (tierPhase names orang cap larang quota last_day d r).picks.Nodup ∧
    (∀ (st : SelSt) (tq : Nat),
      ∀ nm ∈ (tierStep names cap larang quota last_day d st tq).picks.drop
        st.picks.length, nm ∉ st.picks) ∧
    quotaDuringTierLoop quota = quota :=
  ⟨(tierPhase_inv hn).1, fun st tq => tierStep_new_not_mem st tq, rfl⟩

theorem C5_amended_witness :
    (tierPhase ["A", "B"] 2 2 false (fun _ => 0) (fun _ => none) 8
      ⟨fun _ => 0, 0⟩).picks.Nodup :=
  (C5_amended ["A", "B"] 2 2 false (fun _ => 0) (fun _ => none) 8
    ⟨fun _ => 0, 0⟩ (by decide)).1

/-- C6: every person the relaxation phase appends (the picks beyond those of
the tier loop) has a weekly count strictly below the cap at the moment of
selection: relaxation ignores the anti-consecutive rule but still filters by
the cap. -/
theorem C6_relax_under_cap (names : List String) (orang cap : Nat) (larang : Bool)
    (quota : String → Nat) (last_day : String → Option Nat) (d : Nat) (r : Rng) :
    ∀ nm ∈ (selectDay names orang cap larang quota last_day d r).picks.drop
        (tierPhase names orang cap larang quota last_day d r).picks.length,
      quota nm < cap := by
  intro nm hnm
  rw [selectDay] at hnm
  by_cases h0 : 0 < (tierPhase names orang cap larang quota last_day d r).remaining
  · rw [relaxPhase_eq_of_pos h0] at hnm
    rw [List.drop_left] at hnm
    have hg : nm ∈ names.filter (fun n =>
        decide (quota n < cap) && !((tierPhase names orang cap larang quota
          last_day d r).picks.contains n)) :=
      rngShuffle_mem (List.mem_of_mem_take hnm)
    rw [List.mem_filter] at hg
    have hp := hg.2
    simp only [Bool.and_eq_true, decide_eq_true_eq] at hp
    exact hp.1
  · rw [relaxPhase, if_neg h0] at hnm
    rw [List.drop_length] at hnm
    exact absurd hnm (List.not_mem_nil nm)

theorem C6_witness :
    "B" ∈ (selectDay ["A", "B"] 2 2 true (fun _ => 0)
        (fun n => if n = "B" then some 8 else none) 9 ⟨fun _ => 0, 0⟩).picks.drop
      (tierPhase ["A", "B"] 2 2 true (fun _ => 0)
        (fun n => if n = "B" then some 8 else none) 9 ⟨fun _ => 0, 0⟩).picks.length ∧
    (fun _ : String => (0 : Nat)) "B" < 2 :=
  ⟨by decide,
    C6_relax_under_cap ["A", "B"] 2 2 true (fun _ => 0)
      (fun n => if n = "B" then some 8 else none) 9 ⟨fun _ => 0, 0⟩ "B" (by decide)⟩

/-- C10: the day's selection leaves slots unfilled (the condition under which
the shortage error is raised) exactly when, at the start of the day, fewer
than `orang_per_hari` roster members are strictly under the weekly cap;
equivalently, whenever at least `orang_per_hari` people remain under the cap,
the tier loop plus relaxation fill every slot. -/
theorem C10_shortage_iff (names : List String) (orang cap : Nat) (larang : Bool)
    (quota : String → Nat) (last_day : String → Option Nat) (d : Nat) (r : Rng)
    (hn : names.Nodup) :
    (selectDay names orang cap larang quota last_day d r).remaining ≠ 0 ↔
      (names.filter (fun n => decide (quota n < cap))).length < orang :=
  selectDay_remaining_ne_iff hn

theorem C10_witness :
    (selectDay ["A", "B"] 3 1 true (fun _ => 0) (fun _ => none) 8
      ⟨fun _ => 0, 0⟩).remaining ≠ 0 :=
  (C10_shortage_iff ["A", "B"] 3 1 true (fun _ => 0) (fun _ => none) 8
    ⟨fun _ => 0, 0⟩ (by decide)).mpr (by decide)



theorem scheduleDays_shortage {df_people : List (String × String)} {orang cap : Nat}
    {larang : Bool} {d : Nat} {rest : List Nat} {quota : String → Nat}
    {last_day : String → Option Nat} {r : Rng}
    (h : (selectDay (df_people.map Prod.fst) orang cap larang quota last_day d
      r).remaining ≠ 0) :
    scheduleDays df_people orang cap larang (d :: rest) quota last_day r =
      .error ("Tidak cukup kandidat untuk " ++ fmt_tanggal_id d ++ ".") := by
  simp only [scheduleDays]
  rw [if_pos (Nat.pos_of_ne_zero h)]

/-- C3: when a day's slots cannot all be filled even after relaxation, the day
loop aborts with the `RuntimeError` whose message names that day's formatted
date; and a multi-week run only returns a table set when every single week
scheduled successfully - any week's error propagates and no partial result is
returned as success. -/
theorem C3_shortage_error (df_people : List (String × String)) (isHoliday : Nat → Bool)
    (start weeks orang cap : Nat) (larang : Bool) (seed_value : Option Nat)
    (entropy : Nat → Rng) (d : Nat) (rest : List Nat) (quota : String → Nat)
    (last_day : String → Option Nat) (r : Rng) (ws : List (List Row)) :
    ((selectDay (df_people.map Prod.fst) orang cap larang quota last_day d
        r).remaining ≠ 0 →
      scheduleDays df_people orang cap larang (d :: rest) quota last_day r =
        .error ("Tidak cukup kandidat untuk " ++ fmt_tanggal_id d ++ ".")) ∧
    (generate_all_weeks df_people isHoliday start weeks orang cap larang seed_value
        entropy = .ok ws →
      ∀ wk, 1 ≤ wk → wk ≤ weeks →
        (schedule_one_week df_people isHoliday (start + (wk - 1) * 7) orang cap
          larang (seed_value.map (fun s => s + wk)) (entropy wk)).isOk = true) := by
  constructor
  · exact scheduleDays_shortage
  · intro hok wk h1 h2
    obtain ⟨hlen, hidx⟩ := generate_all_weeks_ok_facts hok
    have hw := hidx wk h1 h2
    have hlt : wk - 1 < ws.length := by omega
    rw [List.getElem?_eq_getElem hlt] at hw
    cases hres : schedule_one_week df_people isHoliday (start + (wk - 1) * 7) orang
        cap larang (seed_value.map (fun s => s + wk)) (entropy wk) with
    | ok w => rfl
    | error e =>
      rw [hres] at hw
      exact absurd hw (by simp [Except.toOption])

theorem C3_witness :
    scheduleDays [("A", "TIM")] 1 1 true [9] (fun _ => 1) (fun _ => none)
        ⟨fun _ => 0, 0⟩ =
      .error ("Tidak cukup kandidat untuk " ++ fmt_tanggal_id 9 ++ ".") ∧
    (schedule_one_week [("A", "TIM")] (fun d => !(d == 8)) (8 + (1 - 1) * 7) 1 1 true
      ((some 0).map (fun s => s + 1))
      ((fun _ : Nat => (⟨fun _ => 0, 0⟩ : Rng)) 1)).isOk = true := by
  have h := C3_shortage_error [("A", "TIM")] (fun d => !(d == 8)) 8 1 1 1 true (some 0)
    (fun _ => ⟨fun _ => 0, 0⟩) 9 [] (fun _ => 1) (fun _ => none) ⟨fun _ => 0, 0⟩
    [[⟨1, "A", some "TIM", "A1,3,5,7", 8⟩]]
  exact ⟨h.1 (by decide), h.2 (by rfl) 1 (by decide) (by decide)⟩

/-- C4 counterexample: with a start date falling on a Tuesday (`weekday 9 = 1`)
and otherwise valid inputs, `main` displays the non-Monday validation error
but does **not** block: the generation (and hence `schedule_one_week`) still
runs, so "no call to schedule_one_week occurs when any of these three
conditions holds" is false for the non-Monday condition. -/
theorem C4_counterexample :
    weekday 9 ≠ 0 ∧
    (mainRun [("A", "T")] 9 1 17 2 true (some 1) (fun _ => ⟨fun _ => 0, 0⟩)
      (fun _ => false)).sidebar_errors = ["Tanggal mulai harus hari Senin."] ∧
    (mainRun [("A", "T")] 9 1 17 2 true (some 1) (fun _ => ⟨fun _ => 0, 0⟩)
      (fun _ => false)).result =
      some (generate_all_weeks [("A", "T")] (fun _ => false) 9 1 17 2 true (some 1)
        (fun _ => ⟨fun _ => 0, 0⟩)) :=
  ⟨by decide, by rfl, by rfl⟩

/-- C4 amended: duplicate person names and a slot-template length differing
from `orang_per_hari` are detected before any scheduling and block the run
entirely (no generation result is produced); a non-Monday start date is also
detected before scheduling but only surfaces a sidebar error message and does
not block the run. -/
theorem C4_amended (raw_people : List (String × String))
    (start_date weeks orang cap : Nat) (larang : Bool) (seed_value : Option Nat)
    (entropy : Nat → Rng) (isHoliday : Nat → Bool) :
    (¬ ((raw_people.map (fun p => (strip p.1, strip p.2))).map Prod.fst).Nodup →
      (mainRun raw_people start_date weeks orang cap larang seed_value entropy
        isHoliday).result = none ∧
      (mainRun raw_people start_date weeks orang cap larang seed_value entropy
        isHoliday).blocked = some "Ada duplikat Nama. Harus unik per orang.") ∧
    (((raw_people.map (fun p => (strip p.1, strip p.2))).map Prod.fst).Nodup →
      SLOT_TEMPLATE.length ≠ orang →
      (mainRun raw_people start_date weeks orang cap larang seed_value entropy
        isHoliday).result = none ∧
      (mainRun raw_people start_date weeks orang cap larang seed_value entropy
        isHoliday).blocked.isSome = true) ∧
    (weekday start_date ≠ 0 →
      (mainRun raw_people start_date weeks orang cap larang seed_value entropy
        isHoliday).sidebar_errors = ["Tanggal mulai harus hari Senin."]) ∧
    (((raw_people.map (fun p => (strip p.1, strip p.2))).map Prod.fst).Nodup →
      SLOT_TEMPLATE.length = orang →
      (mainRun raw_people start_date weeks orang cap larang seed_value entropy
        isHoliday).result =
        some (generate_all_weeks (raw_people.map (fun p => (strip p.1, strip p.2)))
          isHoliday start_date weeks orang cap larang seed_value entropy)) := by
  refine ⟨fun hdup => ?_, fun hnd hne => ?_, fun hwd => ?_, fun hnd heq => ?_⟩
  · simp only [mainRun]
    rw [if_pos hdup]
    exact ⟨rfl, rfl⟩
  · simp only [mainRun]
    rw [if_neg (not_not_intro hnd), if_pos hne]
    exact ⟨rfl, rfl⟩
  · simp only [mainRun, if_pos hwd]
    split
    · rfl
    · split
      · rfl
      · rfl
  · simp only [mainRun]
    rw [if_neg (not_not_intro hnd), if_neg (not_not_intro heq)]

theorem C4_amended_witness :
    (mainRun [("A", "T"), ("A", "U")] 8 1 17 2 true none (fun _ => ⟨fun _ => 0, 0⟩)
      (fun _ => false)).result = none ∧
    (mainRun [("A", "T")] 9 1 17 2 true (some 1) (fun _ => ⟨fun _ => 0, 0⟩)
      (fun _ => false)).sidebar_errors = ["Tanggal mulai harus hari Senin."] :=
  ⟨((C4_amended [("A", "T"), ("A", "U")] 8 1 17 2 true none
      (fun _ => ⟨fun _ => 0, 0⟩) (fun _ => false)).1 (by decide)).1,
    (C4_amended [("A", "T")] 9 1 17 2 true (some 1) (fun _ => ⟨fun _ => 0, 0⟩)
      (fun _ => false)).2.2.1 (by decide)⟩

/-- C7: with a supplied base seed the whole multi-week run is independent of
the ambient entropy source (two runs with the same base seed, roster and
configuration are identical), and week `wk` of a successful run is exactly
the one-week schedule at effective seed `base + wk` - for any entropy
argument, which the seeded mode ignores. -/
theorem C7_determinism (df_people : List (String × String)) (isHoliday : Nat → Bool)
    (start weeks orang cap : Nat) (larang : Bool) (s : Nat) (ws : List (List Row)) :
    (∀ e1 e2 : Nat → Rng,
      generate_all_weeks df_people isHoliday start weeks orang cap larang (some s)
          e1 =
        generate_all_weeks df_people isHoliday start weeks orang cap larang (some s)
          e2) ∧
    ∀ entropy : Nat → Rng,
      generate_all_weeks df_people isHoliday start weeks orang cap larang (some s)
        entropy = .ok ws →
      ∀ wk, 1 ≤ wk → wk ≤ weeks → ∀ e' : Rng,
        ws[wk - 1]? = (schedule_one_week df_people isHoliday (start + (wk - 1) * 7)
          orang cap larang (some (s + wk)) e').toOption := by
  constructor
  · intro e1 e2
    exact weeksLoop_entropy_indep e1 e2 weeks 1
  · intro entropy hok wk h1 h2 e'
    obtain ⟨_, hidx⟩ := generate_all_weeks_ok_facts hok
    have hw := hidx wk h1 h2
    rw [Option.map_some'] at hw
    rw [hw, schedule_one_week_seed_indep df_people isHoliday (start + (wk - 1) * 7)
      orang cap larang (s + wk) (entropy wk) e']

theorem C7_witness :
    generate_all_weeks [("A", "TIM")] (fun d => !(d == 8)) 8 1 1 1 true (some 0)
        (fun _ => ⟨fun _ => 0, 0⟩) =
      generate_all_weeks [("A", "TIM")] (fun d => !(d == 8)) 8 1 1 1 true (some 0)
        (fun _ => ⟨fun _ => 7, 3⟩) ∧
    ([[⟨1, "A", some "TIM", "A1,3,5,7", 8⟩]] : List (List Row))[1 - 1]? =
      (schedule_one_week [("A", "TIM")] (fun d => !(d == 8)) (8 + (1 - 1) * 7) 1 1
        true (some (0 + 1)) ⟨fun _ => 5, 0⟩).toOption := by
  have h := C7_determinism [("A", "TIM")] (fun d => !(d == 8)) 8 1 1 1 true 0
    [[⟨1, "A", some "TIM", "A1,3,5,7", 8⟩]]
  exact ⟨h.1 (fun _ => ⟨fun _ => 0, 0⟩) (fun _ => ⟨fun _ => 7, 3⟩),
    h.2 (fun _ => ⟨fun _ => 0, 0⟩) (by rfl) 1 (by decide) (by decide) ⟨fun _ => 5, 0⟩⟩

/-- One seeded week spelled out: the generator is derived from the seed alone
and the day loop starts from the all-zero quota map and the all-`none`
last-day map - fresh per-week state. -/
theorem schedule_one_week_fresh_state (df_people : List (String × String))
    (isHoliday : Nat → Bool) (monday orang cap : Nat) (larang : Bool) (q : Nat)
    (e' : Rng) :
    schedule_one_week df_people isHoliday monday orang cap larang (some q) e' =
      match scheduleDays df_people orang cap larang
          (workdays_in_week isHoliday monday) (fun _ => 0) (fun _ => none)
          (rngOfSeed q) with
      | .error e => .error e
      | .ok p =>
        if capOK (repairPass df_people (df_people.map Prod.fst) cap p.2 p.1).1 cap
        then .ok (repairPass df_people (df_people.map Prod.fst) cap p.2 p.1).1
        else .error "Ada orang > cap mingguan" := by
  simp only [schedule_one_week]
  cases h : scheduleDays df_people orang cap larang
      (workdays_in_week isHoliday monday) (fun _ => 0) (fun _ => none)
      (rngOfSeed q) with
  | error e => rfl
  | ok p =>
    obtain ⟨week, r'⟩ := p
    rfl

/-- C8: in seeded mode a successful run has one table per requested week, and
week `wk`'s table is the result of scheduling Monday `start + 7*(wk-1)` from
freshly initialized quota and last-day state with the generator seeded by
`base + wk` alone - a function of nothing but the roster, the configuration
and that week's effective seed, with no cross-week state (in particular the
anti-consecutive rule sees an empty last-day map at each week start). -/
theorem C8_week_independence (df_people : List (String × String))
    (isHoliday : Nat → Bool) (start weeks orang cap : Nat) (larang : Bool)
    (s : Nat) (entropy : Nat → Rng) (ws : List (List Row))
    (hok : generate_all_weeks df_people isHoliday start weeks orang cap larang
      (some s) entropy = .ok ws) :
    ws.length = weeks ∧
    ∀ wk, 1 ≤ wk → wk ≤ weeks →
      ws[wk - 1]? =
        ((match scheduleDays df_people orang cap larang
            (workdays_in_week isHoliday (start + (wk - 1) * 7)) (fun _ => 0)
            (fun _ => none) (rngOfSeed (s + wk)) with
        | .error e => .error e
        | .ok p =>
          if capOK (repairPass df_people (df_people.map Prod.fst) cap p.2 p.1).1
            cap
          then .ok (repairPass df_people (df_people.map Prod.fst) cap p.2 p.1).1
          else .error "Ada orang > cap mingguan" :
          Except String (List Row))).toOption := by
  obtain ⟨hlen, hidx⟩ := generate_all_weeks_ok_facts hok
  refine ⟨hlen, fun wk h1 h2 => ?_⟩
  have hw := hidx wk h1 h2
  rw [Option.map_some'] at hw
  rw [hw, schedule_one_week_fresh_state]

theorem C8_witness :
    ([[⟨1, "A", some "TIM", "A1,3,5,7", 8⟩]] : List (List Row)).length = 1 :=
  (C8_week_independence [("A", "TIM")] (fun d => !(d == 8)) 8 1 1 1 true 0
    (fun _ => ⟨fun _ => 0, 0⟩) [[⟨1, "A", some "TIM", "A1,3,5,7", 8⟩]] (by rfl)).1

/-- C9: the day block is purely positional: with a pick list of the required
length and a template at least that long (the validated configuration), the
block has one row per slot, and the row at position `i` numbers it `i + 1`
and pairs person `picks[i]` (with their roster team) with label
`SLOT_TEMPLATE[i]` on the given date. -/
theorem C9_positional (df_people : List (String × String)) (orang : Nat)
    (picks : List String) (d : Nat) (h1 : picks.length = orang)
    (h2 : orang ≤ SLOT_TEMPLATE.length) :
    (day_df df_people orang picks d).length = orang ∧
    ∀ i, i < orang →
      (day_df df_people orang picks d)[i]? =
        some ⟨i + 1, picks.getD i "", lookupTeam df_people (picks.getD i ""),
          SLOT_TEMPLATE.getD i "", d⟩ := by
  refine ⟨day_df_length h1 h2, fun i hi => ?_⟩
  unfold day_df
  rw [List.getElem?_map]
  have hr : (List.range orang)[i]? = some i := List.getElem?_range hi
  have hp : (picks.take orang)[i]? = some (picks.getD i "") := by
    rw [List.getElem?_take_of_lt hi, List.getD_eq_getElem?_getD,
      List.getElem?_eq_getElem (show i < picks.length by omega)]
    rfl
  have hs : SLOT_TEMPLATE[i]? = some (SLOT_TEMPLATE.getD i "") := by
    rw [List.getD_eq_getElem?_getD,
      List.getElem?_eq_getElem (show i < SLOT_TEMPLATE.length by omega)]
    rfl
  rw [List.zip_eq_zipWith, List.getElem?_zipWith, hr, List.zip_eq_zipWith,
    List.getElem?_zipWith, hp, hs]
  rfl

theorem C9_witness :
    (day_df [("A", "t1"), ("B", "t2")] 2 ["A", "B"] 8).length = 2 ∧
    (day_df [("A", "t1"), ("B", "t2")] 2 ["A", "B"] 8)[0]? =
      some ⟨0 + 1, (["A", "B"] : List String).getD 0 "",
        lookupTeam [("A", "t1"), ("B", "t2")] ((["A", "B"] : List String).getD 0 ""),
        SLOT_TEMPLATE.getD 0 "", 8⟩ ∧
    (day_df [("A", "t1"), ("B", "t2")] 2 ["A", "B"] 8)[1]? =
      some ⟨1 + 1, (["A", "B"] : List String).getD 1 "",
        lookupTeam [("A", "t1"), ("B", "t2")] ((["A", "B"] : List String).getD 1 ""),
        SLOT_TEMPLATE.getD 1 "", 8⟩ :=
  ⟨(C9_positional [("A", "t1"), ("B", "t2")] 2 ["A", "B"] 8 (by decide) (by decide)).1,
    (C9_positional [("A", "t1"), ("B", "t2")] 2 ["A", "B"] 8 (by decide)
      (by decide)).2 0 (by decide),
    (C9_positional [("A", "t1"), ("B", "t2")] 2 ["A", "B"] 8 (by decide)
      (by decide)).2 1 (by decide)⟩


end Piket
